import Mathlib

/-!
Verification development for the terminal-portfolio repository.

The embedding below translates the interpreter core of
`src/components/home.tsx` (command dispatch, input/recall state machine,
tab completion) and the content pipeline of `src/components/blog.tsx`
(front-matter parsing, date sort) into Lean, and proves the behavioural
properties stated in the specification against that embedding.

Modelling conventions:
* JS strings are Lean `String`s / `List Char`; `toLowerCase` is modelled for
  the ASCII range (all command names are ASCII), `trim` and the regex class
  `\s` over the common JS whitespace characters.
* React state updates inside one handler are applied sequentially, which
  matches the queued functional-update semantics of the source.
* Line `id`s and timestamps of terminal lines are omitted: no claim is about
  them (uniqueness is their only invariant).
-/

namespace Portfolio

/-- The JS whitespace class (`\s`, `trim`): the characters that can occur
in this code base's inputs. -/
def jsWs (c : Char) : Bool :=
  c = ' ' || c = '\t' || c = '\n' || c = '\r' || c = '\x0b' || c = '\x0c'

/-- Model of `String.prototype.trim` on character lists. -/
def trimChars (cs : List Char) : List Char :=
  ((cs.dropWhile jsWs).reverse.dropWhile jsWs).reverse

/-- Model of `String.prototype.toLowerCase` (ASCII range). -/
def lowerChars (cs : List Char) : List Char :=
  cs.map Char.toLower

/-- Model of `command.toLowerCase().trim()` — the normalization the dispatcher and the
completion helper apply to raw input. -/
def jsNormalize (s : String) : String :=
  ⟨trimChars (lowerChars s.data)⟩

/-- Model of `String.prototype.toLowerCase` on strings. -/
def lowerStr (s : String) : String :=
  ⟨lowerChars s.data⟩

/-- The `type` tag of a `TerminalLine` in `home.tsx`. -/
inductive LineKind where
  | command
  | output
  | error
  | accent
  | help
deriving DecidableEq, Repr

/-- One scrollback entry (`TerminalLine` in `home.tsx`, without the `id` and
timestamp fields, which no claim concerns). -/
structure TerminalLine where
  kind : LineKind
  content : String
deriving DecidableEq, Repr

/-- The active view (`currentPage` state in `home.tsx`). -/
inductive Page where
  | home
  | projects
  | blog
deriving DecidableEq, Repr

/-- The React state of `HomePage`: input buffer, scrollback, active view,
command history and the recall cursor (`-1` is the "not recalling"
sentinel, as in the source). -/
structure SessionState where
  currentInput : String
  history : List TerminalLine
  currentPage : Page
  commandHistory : List String
  historyIndex : Int
deriving DecidableEq, Repr

/-- The `validCommands` list from `home.tsx` line 22. -/
def validCommands : List String :=
  ["help", "whoami", "contact", "projects", "blog", "home", "clear", "ls", "pwd"]

/-- The prompt text prepended to every echoed submission. -/
def promptStr : String := "visitor@yagiz-terminal:~$ "

/-- The command-echo line added at the start of `executeCommand`. -/
def echoLine (command : String) : TerminalLine :=
  ⟨.command, promptStr ++ command⟩

/-- The lines the `help` case appends: one header plus one entry per command
listed there (six entries in the source). -/
def helpLines : List TerminalLine :=
  [⟨.output, "Available commands:"⟩,
   ⟨.help, "  whoami     - Display personal information"⟩,
   ⟨.help, "  projects   - View my projects"⟩,
   ⟨.help, "  blog       - Read my blog posts"⟩,
   ⟨.help, "  contact    - Get contact information"⟩,
   ⟨.help, "  clear      - Clear terminal"⟩,
   ⟨.help, "  home       - Return to home page"⟩]

/-- The lines the `whoami` case appends. -/
def whoamiLines : List TerminalLine :=
  [⟨.output, "Yagiz Kilicarslan"⟩,
   ⟨.output, "Software Engineer & Backend Lead at ArealAI"⟩,
   ⟨.output, "Passionate about scalable systems and clean code"⟩]

/-- The lines the `contact` case appends. -/
def contactLines : List TerminalLine :=
  [⟨.output, "Contact Information:"⟩,
   ⟨.accent, "📧  yagiz.kilicarslan1@gmail.com"⟩,
   ⟨.output, ""⟩,
   ⟨.output, "Find me online:"⟩,
   ⟨.accent, "🐙  https://github.com/yagizklc"⟩,
   ⟨.accent, "💼  https://linkedin.com/in/yagizkilicarslan"⟩,
   ⟨.accent, "🐦  https://twitter.com/yagizklc"⟩,
   ⟨.output, ""⟩,
   ⟨.output, "Feel free to reach out for collaborations!"⟩]

/-- The error line of the default dispatch case. -/
def notFoundLine (command : String) : TerminalLine :=
  ⟨.error, "Command not found: " ++ command ++ ". Type \'help\' for available commands."⟩

/-- The seeded welcome scrollback (`home.tsx` lines 69-80). -/
def welcomeLines : List TerminalLine :=
  [⟨.output, "Welcome to my terminal portfolio. (Version 1.0.0)"⟩,
   ⟨.output, "----"⟩,
   ⟨.output, ""⟩,
   ⟨.output, "This project\'s source code can be seen in this project\'s "⟩,
   ⟨.accent, "GitHub repo: https://github.com/yagizklc/yagizklc.github.io"⟩,
   ⟨.output, ""⟩,
   ⟨.output, "----"⟩,
   ⟨.output, ""⟩,
   ⟨.output, "For a list of available commands, type \'help\'."⟩]

/-- The session right after page load. -/
def initialState : SessionState :=
  ⟨"", welcomeLines, .home, [], -1⟩

/-- Model of `executeCommand` from `home.tsx` lines 87-161: echo the raw submission,
record it in the command history, reset the recall cursor, then run the
`switch` on the normalized text. -/
def executeCommand (st : SessionState) (command : String) : SessionState :=
  let cmd := jsNormalize command
  let st1 : SessionState :=
    { st with
      history := st.history ++ [echoLine command],
      commandHistory := st.commandHistory ++ [command],
      historyIndex := -1 }
  if cmd = "help" then
    { st1 with history := st1.history ++ helpLines }
  else if cmd = "whoami" then
    { st1 with history := st1.history ++ whoamiLines }
  else if cmd = "contact" then
    { st1 with history := st1.history ++ contactLines }
  else if cmd = "projects" then
    { st1 with history := st1.history ++ [⟨.output, "Loading projects..."⟩],
               currentPage := .projects }
  else if cmd = "blog" then
    { st1 with history := st1.history ++ [⟨.output, "Loading blog posts..."⟩],
               currentPage := .blog }
  else if cmd = "home" then
    { st1 with history := st1.history ++ [⟨.output, "Returning to home..."⟩],
               currentPage := .home }
  else if cmd = "clear" then
    { st1 with history := [] }
  else if cmd = "ls" then
    { st1 with history := st1.history ++ [⟨.output, "home/     projects/     blog/     contact.txt"⟩] }
  else if cmd = "pwd" then
    { st1 with history := st1.history ++ [⟨.output, "/home/yagiz/personal-website"⟩] }
  else if cmd = "" then
    st1
  else
    { st1 with history := st1.history ++ [notFoundLine command] }

/-- Model of `getMatchingCommands` from `home.tsx` lines 30-35: empty input yields no
matches, otherwise the commands whose (lower-case) text starts with the
normalized input. -/
def getMatchingCommands (input : String) : List String :=
  if input = "" then []
  else validCommands.filter (fun cmd => (jsNormalize input).data.isPrefixOf (lowerStr cmd).data)

/-- The `Enter` branch of `handleKeyDown`: dispatch, then clear the buffer. -/
def handleEnter (st : SessionState) : SessionState :=
  { executeCommand st st.currentInput with currentInput := "" }

/-- The `Tab` branch of `handleKeyDown`: one match completes the buffer,
several matches append an informational line, zero matches do nothing. -/
def handleTab (st : SessionState) : SessionState :=
  let ms := getMatchingCommands st.currentInput
  if ms.length = 1 then
    { st with currentInput := ms.headD "" }
  else if 1 < ms.length then
    { st with history :=
        st.history ++ [⟨.output, "Possible completions: " ++ String.intercalate ", " ms⟩] }
  else st

/-- The `ArrowUp` branch of `handleKeyDown` (`home.tsx` lines 176-182). -/
def handleArrowUp (st : SessionState) : SessionState :=
  if 0 < st.commandHistory.length then
    let newIndex : Int :=
      if st.historyIndex = -1 then (st.commandHistory.length : Int) - 1
      else max 0 (st.historyIndex - 1)
    { st with historyIndex := newIndex,
              currentInput := st.commandHistory.getD newIndex.toNat "" }
  else st

/-- The `ArrowDown` branch of `handleKeyDown` (`home.tsx` lines 183-195). -/
def handleArrowDown (st : SessionState) : SessionState :=
  if st.historyIndex = -1 then st
  else
    let newIndex : Int := min ((st.commandHistory.length : Int) - 1) (st.historyIndex + 1)
    if newIndex = (st.commandHistory.length : Int) - 1 then
      { st with historyIndex := -1, currentInput := "" }
    else
      { st with historyIndex := newIndex,
                currentInput := st.commandHistory.getD newIndex.toNat "" }

/-- The input element's `onChange` handler (`home.tsx` line 299): it only
overwrites the buffer with the edited text. -/
def handleInputChange (st : SessionState) (value : String) : SessionState :=
  { st with currentInput := value }

/-! ## Blog content pipeline (`src/components/blog.tsx`) -/

/-- One loaded blog post (`BlogPost` interface in `blog.tsx`). -/
structure BlogPost where
  slug : String
  title : String
  date : String
  readTime : String
  excerpt : String
  tags : List String
  content : String
deriving DecidableEq, Repr

/-- Year is a leap year (proleptic Gregorian, as ECMAScript dates use). -/
def isLeapYear (y : Int) : Bool :=
  y % 4 = 0 && (¬ y % 100 = 0 || y % 400 = 0)

/-- Days in a month of a given year. -/
def daysInMonth (y m : Int) : Int :=
  if m = 2 then (if isLeapYear y then 29 else 28)
  else if m = 4 || m = 6 || m = 9 || m = 11 then 30
  else 31

/-- Days between the civil date `y-m-d` and the Unix epoch (the standard
days-from-civil computation; every intermediate value is nonnegative for the
four-digit years the date parser accepts). -/
def daysFromCivil (y m d : Int) : Int :=
  let y2 := if m ≤ 2 then y - 1 else y
  let era := y2 / 400
  let yoe := y2 - era * 400
  let mp := (m + 9) % 12
  let doy := (153 * mp + 2) / 5 + d - 1
  let doe := yoe * 365 + yoe / 4 - yoe / 100 + doy
  era * 146097 + doe - 719468

/-- Numeric value of a decimal digit character. -/
def digitVal (c : Char) : Int :=
  (c.toNat : Int) - ('0'.toNat : Int)

/-- Model of `new Date(s).getTime()` for the date strings of this content
pipeline: a `YYYY-MM-DD` string parses to the epoch milliseconds of that
civil date at UTC midnight (ECMAScript date-only ISO form); any other
string — in particular the empty string that `date` defaults to when the
front matter lacks one — yields `none`, standing for `NaN`. -/
def parseDateMs (s : String) : Option Int :=
  match s.data with
  | [y1, y2, y3, y4, h1, m1, m2, h2, d1, d2] =>
    if (y1.isDigit && y2.isDigit && y3.isDigit && y4.isDigit &&
        h1 = '-' && m1.isDigit && m2.isDigit && h2 = '-' &&
        d1.isDigit && d2.isDigit) then
      let y := digitVal y1 * 1000 + digitVal y2 * 100 + digitVal y3 * 10 + digitVal y4
      let m := digitVal m1 * 10 + digitVal m2
      let d := digitVal d1 * 10 + digitVal d2
      if 1 ≤ m && m ≤ 12 && 1 ≤ d && d ≤ daysInMonth y m then
        some (daysFromCivil y m d * 86400000)
      else none
    else none
  | _ => none

/-- The sort comparator at `blog.tsx` line 78,
`(a, b) => new Date(b.date).getTime() - new Date(a.date).getTime()`,
composed with the ECMAScript `SortCompare` coercion: when either date fails
to parse the subtraction yields `NaN`, which `SortCompare` turns into `+0`,
so such a pair compares as equal. -/
def postCompare (a b : BlogPost) : Int :=
  match parseDateMs a.date, parseDateMs b.date with
  | some ta, some tb => tb - ta
  | _, _ => 0

/-- The non-strict order induced by the comparator: `a` may stay before `b`. -/
def postLe (a b : BlogPost) : Prop :=
  postCompare a b ≤ 0

instance : DecidableRel postLe := fun a b => by
  unfold postLe; infer_instance

/-- The registry sort at `blog.tsx` line 78. `Array.prototype.sort` is
required to be stable (ES2019), and for a consistent comparator the stable
result is unique, so it is modelled by a stable insertion sort over the
comparator's non-strict order. -/
def sortBlogPosts (posts : List BlogPost) : List BlogPost :=
  posts.insertionSort postLe

/-- The parsed date of a post, defaulted — used only to state order. -/
def postTime (p : BlogPost) : Int :=
  (parseDateMs p.date).getD 0

/-- A post whose `date` field parses (`getTime` is not `NaN`). -/
def hasValidDate (p : BlogPost) : Prop :=
  (parseDateMs p.date).isSome = true

instance : DecidablePred hasValidDate := fun p => by
  unfold hasValidDate; infer_instance

/-! ## Front-matter parser (`parseMarkdownWithFrontmatter`, `blog.tsx` 87-124)

The source matches the blob against the regex
`^---\s*\n([\s\S]*?)\n---\s*\n([\s\S]*)$` and, on a match, parses group 1
line by line into a string-keyed object.  The matcher below implements that
regex's backtracking semantics for this fixed pattern: the two `\s*\n`
fragments are greedy (longest whitespace run first), the group-1 fragment is
lazy (earliest closing `\n---` that lets the rest of the pattern match). -/

/-- A front-matter value: a plain string or a bracketed comma-list. -/
inductive FMValue where
  | str : List Char → FMValue
  | list : List (List Char) → FMValue
deriving DecidableEq, Repr

/-- JS object insertion (`obj[key] = v`): overwrite if the key is present,
else append, preserving first-insertion order. -/
def objInsert (m : List (List Char × FMValue)) (k : List Char) (v : FMValue) :
    List (List Char × FMValue) :=
  if m.any (fun p => p.1 == k) then
    m.map (fun p => if p.1 = k then (k, v) else p)
  else m ++ [(k, v)]

/-- Model of `value.slice(1, -1)`. -/
def sliceInner (v : List Char) : List Char :=
  (v.drop 1).dropLast

/-- The quote-stripping step: if the value starts and ends with the same
quote character, `slice(1, -1)`. -/
def unquote (v : List Char) : List Char :=
  if (v.head? = some '"' ∧ v.getLast? = some '"') ∨
     (v.head? = some '\'' ∧ v.getLast? = some '\'') then
    sliceInner v
  else v

/-- The list-element cleanup `item.replace(/^["<squote>]|["<squote>]$/g, "")`:
drop one leading and one trailing quote character independently. -/
def stripElemQuotes (v : List Char) : List Char :=
  let v1 := if v.head? = some '"' ∨ v.head? = some '\'' then v.drop 1 else v
  if v1.getLast? = some '"' ∨ v1.getLast? = some '\'' then v1.dropLast else v1

/-- The bracketed-value split: `slice(1,-1).split(",")`, each element trimmed
and quote-stripped. -/
def splitListValue (v : List Char) : List (List Char) :=
  ((sliceInner v).splitOn ',').map (fun item => stripElemQuotes (trimChars item))

/-- One iteration of the header loop: a line splits at its first `:` (which
must not be at position 0 and must exist); the key and value are trimmed,
the value unquoted, and a `[...]` value becomes a list. -/
def parseHeaderLine (line : List Char) : Option (List Char × FMValue) :=
  let i := line.indexOf ':'
  if 0 < i ∧ i < line.length then
    let key := trimChars (line.take i)
    let v1 := unquote (trimChars (line.drop (i + 1)))
    if v1.head? = some '[' ∧ v1.getLast? = some ']' then
      some (key, .list (splitListValue v1))
    else
      some (key, .str v1)
  else none

/-- The header loop over a list of lines (lines without a usable `:` are
ignored; duplicate keys overwrite). -/
def foldHeaderLines (lines : List (List Char)) : List (List Char × FMValue) :=
  lines.foldl
    (fun m line =>
      match parseHeaderLine line with
      | some (k, v) => objInsert m k v
      | none => m)
    []

/-- The header text split on newlines and fed through the header loop. -/
def parseFrontmatterText (fmText : List Char) : List (List Char × FMValue) :=
  foldHeaderLines (fmText.splitOn '\n')

/-- The suffixes that the regex fragment `\s*\n` can leave when matched at
the head of `cs`, in the engine's greedy backtracking order: the longest
whitespace run ending in a newline is consumed first, the single-newline
consumption is tried last. -/
def wsNlRests : List Char → List (List Char)
  | [] => []
  | c :: rest =>
    if jsWs c then
      (if c = '\n' then wsNlRests rest ++ [rest] else wsNlRests rest)
    else []

/-- The literal `---`. -/
def isDashes (cs : List Char) : Bool :=
  ['-', '-', '-'].isPrefixOf cs

/-- The lazy scan for the closing `\n---\s*\n`: at the first position whose
character is `\n` followed by `---` and a whitespace run ending in a newline,
return the scanned text (regex group 1) and the greedily chosen suffix
(start of group 2); otherwise keep scanning. -/
def findClose (acc : List Char) : List Char → Option (List Char × List Char)
  | [] => none
  | c :: rest =>
    if c = '\n' ∧ isDashes rest then
      match wsNlRests (rest.drop 3) with
      | t :: _ => some (acc.reverse, t)
      | [] => findClose (c :: acc) rest
    else findClose (c :: acc) rest

/-- The full match of `^---\s*\n([\s\S]*?)\n---\s*\n([\s\S]*)$`: `none` when
the pattern does not match, otherwise `(group 1, group 2)`. -/
def matchFrontmatter (cs : List Char) : Option (List Char × List Char) :=
  if isDashes cs then
    (wsNlRests (cs.drop 3)).findSome? (fun rest => findClose [] rest)
  else none

/-- The parser's result: the header object and the body text. -/
structure ParsedDoc where
  frontmatter : List (List Char × FMValue)
  content : List Char
deriving DecidableEq, Repr

/-- Model of `parseMarkdownWithFrontmatter`: on a regex match, parse group 1 as the
header and return group 2 as the body; otherwise an empty header and the
whole input as body. -/
def parseMarkdownWithFrontmatter (cs : List Char) : ParsedDoc :=
  match matchFrontmatter cs with
  | some (fmText, body) => ⟨parseFrontmatterText fmText, body⟩
  | none => ⟨[], cs⟩

/-! ## Claims about the dispatcher and the input/recall state machine -/

/-- C1 (counterexample): submitting `"HELP"` does not append one description
line per known command.  The claim requires the scrollback to grow by one
echo line, one header line and one line per each of the nine
`validCommands` (11 lines); the code appends the echo, the header and only
six description lines (8 lines). -/
theorem c1_help_counterexample :
    ¬ ((executeCommand initialState "HELP").history.length
        = initialState.history.length + 2 + validCommands.length) ∧
    (executeCommand initialState "HELP").history.length
        = initialState.history.length + 8 := by
  decide

/-- C1 (amended): for every submitted input that normalizes to `help`, the
dispatcher echoes the raw input with the prompt, then appends one header
line plus one description line for each of the six commands listed in the
source (`whoami`, `projects`, `blog`, `contact`, `clear`, `home`), in that
fixed declared order; the active view (and everything else except command
history and recall cursor) is unchanged. -/
theorem c1_help_appends_header_and_six_entries
    (st : SessionState) (raw : String) (h : jsNormalize raw = "help") :
    executeCommand st raw =
      { st with history := st.history ++ echoLine raw :: helpLines,
                commandHistory := st.commandHistory ++ [raw],
                historyIndex := -1 } := by
  unfold executeCommand
  simp [h]

/-- C1 witness: the amended theorem applied to the raw input `"HELP"`. -/
theorem c1_help_witness :
    executeCommand initialState "HELP" =
      { initialState with
        history := initialState.history ++ echoLine "HELP" :: helpLines,
        commandHistory := initialState.commandHistory ++ ["HELP"],
        historyIndex := -1 } :=
  c1_help_appends_header_and_six_entries initialState "HELP" (by decide)

/-- C3 (counterexample): submitting the empty string does mutate the
scrollback — the command-echo line is appended unconditionally before the
`switch`, so the scrollback grows by exactly that one line (the
history-append and cursor-reset parts of the claim do hold). -/
theorem c3_empty_counterexample :
    (executeCommand initialState "").history ≠ initialState.history ∧
    (executeCommand initialState "").history
        = initialState.history ++ [echoLine ""] ∧
    (executeCommand initialState "").commandHistory = [""] ∧
    (executeCommand initialState "").historyIndex = -1 := by
  decide

/-- C3 (amended): a submission that normalizes to the empty string appends
exactly one line — the command echo — to the scrollback (no output lines),
while still appending exactly one entry to the command history and
resetting the recall cursor to the sentinel; the view and buffer are
untouched. -/
theorem c3_empty_submission_echo_only
    (st : SessionState) (raw : String) (h : jsNormalize raw = "") :
    executeCommand st raw =
      { st with history := st.history ++ [echoLine raw],
                commandHistory := st.commandHistory ++ [raw],
                historyIndex := -1 } := by
  unfold executeCommand
  simp [h]

/-- C3 witness: the amended theorem applied to a whitespace submission. -/
theorem c3_empty_submission_witness :
    executeCommand initialState " " =
      { initialState with
        history := initialState.history ++ [echoLine " "],
        commandHistory := initialState.commandHistory ++ [" "],
        historyIndex := -1 } :=
  c3_empty_submission_echo_only initialState " " (by decide)

/-- C6: a non-empty submission whose normalized form is not a known command
appends (after the universal command echo, whose kind is not `error`)
exactly one error line, which names the raw command and points to `help`;
the view, the buffer, and everything else change only by the universal
history-append and cursor reset. -/
theorem c6_unknown_command_single_error
    (st : SessionState) (raw : String)
    (hmem : jsNormalize raw ∉ validCommands) (hne : jsNormalize raw ≠ "") :
    executeCommand st raw =
      { st with history := st.history ++ [echoLine raw, notFoundLine raw],
                commandHistory := st.commandHistory ++ [raw],
                historyIndex := -1 } ∧
    (echoLine raw).kind ≠ LineKind.error ∧
    (notFoundLine raw).kind = LineKind.error := by
  have h1 : jsNormalize raw ≠ "help" := fun e => hmem (e ▸ by decide)
  have h2 : jsNormalize raw ≠ "whoami" := fun e => hmem (e ▸ by decide)
  have h3 : jsNormalize raw ≠ "contact" := fun e => hmem (e ▸ by decide)
  have h4 : jsNormalize raw ≠ "projects" := fun e => hmem (e ▸ by decide)
  have h5 : jsNormalize raw ≠ "blog" := fun e => hmem (e ▸ by decide)
  have h6 : jsNormalize raw ≠ "home" := fun e => hmem (e ▸ by decide)
  have h7 : jsNormalize raw ≠ "clear" := fun e => hmem (e ▸ by decide)
  have h8 : jsNormalize raw ≠ "ls" := fun e => hmem (e ▸ by decide)
  have h9 : jsNormalize raw ≠ "pwd" := fun e => hmem (e ▸ by decide)
  refine ⟨?_, by simp [echoLine], rfl⟩
  unfold executeCommand
  simp [h1, h2, h3, h4, h5, h6, h7, h8, h9, hne]

/-- C6 witness: the theorem applied to the unknown command `"foo"`. -/
theorem c6_unknown_command_witness :
    (executeCommand initialState "foo" =
      { initialState with
        history := initialState.history ++ [echoLine "foo", notFoundLine "foo"],
        commandHistory := initialState.commandHistory ++ ["foo"],
        historyIndex := -1 }) ∧
    (echoLine "foo").kind ≠ LineKind.error ∧
    (notFoundLine "foo").kind = LineKind.error :=
  c6_unknown_command_single_error initialState "foo" (by decide) (by decide)

/-- C7 (counterexample): submitting `clear` does not leave the command
history unchanged — like every submission it appends the raw string, so the
length grows by one (the scrollback does become empty and the view is
preserved). -/
theorem c7_clear_counterexample :
    (executeCommand initialState "clear").commandHistory
        ≠ initialState.commandHistory ∧
    (executeCommand initialState "clear").history = [] ∧
    (executeCommand initialState "clear").currentPage = initialState.currentPage := by
  decide

/-- C7 (amended): a submission that normalizes to `clear` replaces the
scrollback with the empty sequence and leaves the active view unchanged;
the command history is not cleared — its previous contents are preserved and,
as for every submission, the raw string is appended to it and the recall
cursor is reset. -/
theorem c7_clear_empties_scrollback
    (st : SessionState) (raw : String) (h : jsNormalize raw = "clear") :
    executeCommand st raw =
      { st with history := [],
                commandHistory := st.commandHistory ++ [raw],
                historyIndex := -1 } := by
  unfold executeCommand
  simp [h]

/-- C7 witness: the amended theorem applied to the raw input `"CLEAR "`. -/
theorem c7_clear_witness :
    executeCommand initialState "CLEAR " =
      { initialState with
        history := [],
        commandHistory := initialState.commandHistory ++ ["CLEAR "],
        historyIndex := -1 } :=
  c7_clear_empties_scrollback initialState "CLEAR " (by decide)

/-- C10: pressing Tab with an empty input buffer changes nothing — the
matching helper returns no matches for empty input (its explicit first
branch), so neither completion nor a completions line happens. -/
theorem c10_tab_empty_buffer_noop
    (st : SessionState) (h : st.currentInput = "") :
    handleTab st = st := by
  simp [handleTab, getMatchingCommands, h]

/-- C10 witness: the theorem applied to the initial session state. -/
theorem c10_tab_empty_buffer_witness :
    handleTab initialState = initialState :=
  c10_tab_empty_buffer_noop initialState rfl

/-- C4 (counterexample): with history `["a", "b"]` and recall cursor 0 —
strictly before the last index 1 — pressing Down does not move to
recalling(1) with buffer `"b"` as the claim states: the code computes
`newIndex = 1 = length - 1` and therefore returns to live with an empty
buffer. -/
theorem c4_recall_next_counterexample :
    (handleArrowDown ⟨"a", [], Page.home, ["a", "b"], 0⟩).historyIndex = -1 ∧
    (handleArrowDown ⟨"a", [], Page.home, ["a", "b"], 0⟩).currentInput = "" ∧
    ¬ ((handleArrowDown ⟨"a", [], Page.home, ["a", "b"], 0⟩).historyIndex = 1 ∧
       (handleArrowDown ⟨"a", [], Page.home, ["a", "b"], 0⟩).currentInput = "b") := by
  decide

/-- C4 (amended): pressing Down while live is a no-op; while recalling(i) it
returns to live and clears the buffer whenever `min(last, i+1)` equals the
last index — that is, already from `i = last - 1`, not only from
`i = last` — and only when `i + 1` is strictly before the last index does it
move to recalling(i+1) and copy that entry into the buffer. -/
theorem c4_recall_next_cases (st : SessionState) :
    (st.historyIndex = -1 → handleArrowDown st = st) ∧
    (∀ i : ℕ, st.historyIndex = (i : Int) → st.commandHistory.length ≤ i + 2 →
      handleArrowDown st = { st with historyIndex := -1, currentInput := "" }) ∧
    (∀ i : ℕ, st.historyIndex = (i : Int) → i + 2 < st.commandHistory.length →
      handleArrowDown st =
        { st with historyIndex := (i : Int) + 1,
                  currentInput := st.commandHistory.getD (i + 1) "" }) := by
  refine ⟨fun h => by simp [handleArrowDown, h], fun i hi hlen => ?_, fun i hi hlen => ?_⟩
  · have hne : st.historyIndex ≠ -1 := by omega
    have hmin : min ((st.commandHistory.length : Int) - 1) (st.historyIndex + 1)
        = (st.commandHistory.length : Int) - 1 := by omega
    simp [handleArrowDown, hne, hmin]
  · have hne : st.historyIndex ≠ -1 := by omega
    have hmin : min ((st.commandHistory.length : Int) - 1) ((i : Int) + 1)
        = (i : Int) + 1 := by omega
    have hneq : ¬ ((i : Int) + 1 = (st.commandHistory.length : Int) - 1) := by omega
    have htn : ((i : Int) + 1).toNat = i + 1 := by omega
    unfold handleArrowDown
    rw [if_neg hne]
    simp only [hi, hmin]
    rw [if_neg hneq, htn]

/-- C4 witness: the amended theorem's third case applied to a session
recalling index 0 of a three-entry history. -/
theorem c4_recall_next_witness :
    handleArrowDown ⟨"x", [], Page.home, ["a", "b", "c"], 0⟩ =
      { (⟨"x", [], Page.home, ["a", "b", "c"], 0⟩ : SessionState) with
        historyIndex := ((0 : ℕ) : Int) + 1,
        currentInput := ["a", "b", "c"].getD (0 + 1) "" } :=
  (c4_recall_next_cases _).2.2 0 rfl (by decide)

/-- C5 (counterexample): with history `["a", "b", "c"]` and recall cursor 2
(the last entry just recalled), editing the buffer to `"x"` does not return
the session to live — the cursor stays at 2 — and a subsequent Up recalls
index 1 (`"b"`), continuing from the old cursor rather than re-entering at
the last index (which would yield `"c"`). -/
theorem c5_edit_while_recalling_counterexample :
    (handleInputChange ⟨"c", [], Page.home, ["a", "b", "c"], 2⟩ "x").historyIndex ≠ -1 ∧
    (handleArrowUp (handleInputChange ⟨"c", [], Page.home, ["a", "b", "c"], 2⟩ "x")).currentInput
        = "b" ∧
    (handleArrowUp (handleInputChange ⟨"c", [], Page.home, ["a", "b", "c"], 2⟩ "x")).currentInput
        ≠ "c" := by
  decide

/-- C5 (amended): a direct free-text edit only overwrites the input buffer
and leaves the recall cursor untouched; hence, while recalling(i), a
subsequent Up press continues from i — moving to `max(0, i-1)` — rather than
re-entering at the last history index. -/
theorem c5_edit_keeps_recall_cursor (st : SessionState) (s : String) :
    (handleInputChange st s).historyIndex = st.historyIndex ∧
    (handleInputChange st s).currentInput = s ∧
    (∀ i : ℕ, st.historyIndex = (i : Int) → 0 < st.commandHistory.length →
      (handleArrowUp (handleInputChange st s)).historyIndex
        = max 0 ((i : Int) - 1)) := by
  refine ⟨rfl, rfl, fun i hi hlen => ?_⟩
  have hne : st.historyIndex ≠ -1 := by omega
  simp [handleArrowUp, handleInputChange, hne, hlen, hi]

/-- C5 witness: the amended theorem applied to a session recalling index 2
of a three-entry history, edited to `"x"`. -/
theorem c5_edit_keeps_recall_cursor_witness :
    (handleArrowUp (handleInputChange ⟨"c", [], Page.home, ["a", "b", "c"], 2⟩ "x")).historyIndex
      = max 0 (((2 : ℕ) : Int) - 1) :=
  (c5_edit_keeps_recall_cursor ⟨"c", [], Page.home, ["a", "b", "c"], 2⟩ "x").2.2 2 rfl
    (by decide)

/-! ## Claims about the Content Registry sort -/

/-- C2 (counterexample): a record with a missing (empty, unparsable) date
does not sink to the bottom.  The comparator subtracts `getTime` values; an
unparsable date gives `NaN`, which `SortCompare` coerces to `+0`, so the
dateless record compares equal to everything and the stable sort leaves it
in place: sorting `[no-date, 2024-01-15]` keeps the dateless record first,
whereas the claim requires it to come last. -/
theorem c2_registry_sort_counterexample :
    sortBlogPosts
        [⟨"n", "", "", "", "", [], ""⟩, ⟨"a", "", "2024-01-15", "", "", [], ""⟩]
      = [⟨"n", "", "", "", "", [], ""⟩, ⟨"a", "", "2024-01-15", "", "", [], ""⟩] ∧
    sortBlogPosts
        [⟨"n", "", "", "", "", [], ""⟩, ⟨"a", "", "2024-01-15", "", "", [], ""⟩]
      ≠ [⟨"a", "", "2024-01-15", "", "", [], ""⟩, ⟨"n", "", "", "", "", [], ""⟩] := by
  decide

/-- C2 (amended): the registry sort orders records by date descending when
every date parses (the output is pairwise descending and a permutation of
the input); it is stable — an input already in comparator order, ties
included, is returned unchanged; and the three records dated 2024-01-15,
2024-01-08, 2023-12-20 come out in strictly descending date order.  A
record whose date is missing or unparsable compares equal to every other
record and keeps its original relative position instead of sinking to the
bottom. -/
theorem c2_registry_sort_descending (l : List BlogPost)
    (hv : ∀ p ∈ l, hasValidDate p) :
    List.Pairwise (fun a b => postTime a ≥ postTime b) (sortBlogPosts l) ∧
    List.Perm (sortBlogPosts l) l ∧
    (List.Sorted postLe l → sortBlogPosts l = l) ∧
    sortBlogPosts
        [⟨"c", "", "2023-12-20", "", "", [], ""⟩,
         ⟨"a", "", "2024-01-15", "", "", [], ""⟩,
         ⟨"b", "", "2024-01-08", "", "", [], ""⟩]
      = [⟨"a", "", "2024-01-15", "", "", [], ""⟩,
         ⟨"b", "", "2024-01-08", "", "", [], ""⟩,
         ⟨"c", "", "2023-12-20", "", "", [], ""⟩] := by
  refine ⟨?_, List.perm_insertionSort postLe l, fun hs => hs.insertionSort_eq, by decide⟩
  have hl : ∀ a ∈ l, ∀ b ∈ l,
      postLe a b ↔ (fun x y : Int => x ≥ y) (postTime a) (postTime b) := by
    intro a ha b hb
    have hva := hv a ha
    have hvb := hv b hb
    unfold hasValidDate at hva hvb
    obtain ⟨ta, hta⟩ := Option.isSome_iff_exists.mp hva
    obtain ⟨tb, htb⟩ := Option.isSome_iff_exists.mp hvb
    simp [postLe, postCompare, postTime, hta, htb]
  have hmap := List.map_insertionSort postLe (fun x y : Int => x ≥ y) postTime l hl
  have hs : List.Sorted (fun x y : Int => x ≥ y)
      ((l.map postTime).insertionSort (fun x y : Int => x ≥ y)) :=
    List.sorted_insertionSort _ _
  rw [← hmap] at hs
  unfold sortBlogPosts
  exact List.pairwise_map.mp hs

/-- C2 witness: the amended theorem applied to the three dated records of
the specification's example. -/
theorem c2_registry_sort_witness :
    sortBlogPosts
        [⟨"c", "", "2023-12-20", "", "", [], ""⟩,
         ⟨"a", "", "2024-01-15", "", "", [], ""⟩,
         ⟨"b", "", "2024-01-08", "", "", [], ""⟩]
      |>.Perm
        [⟨"c", "", "2023-12-20", "", "", [], ""⟩,
         ⟨"a", "", "2024-01-15", "", "", [], ""⟩,
         ⟨"b", "", "2024-01-08", "", "", [], ""⟩] :=
  (c2_registry_sort_descending _ (by decide)).2.1

/-! ## Claims about the front-matter parser -/

/-- A header line of the well-formed-blob shape: non-empty, on one line, and
beginning with a key character (not whitespace, not a dash — a line starting
with `---` would be a delimiter). -/
def wfHeaderLine (l : List Char) : Prop :=
  l ≠ [] ∧ (∀ c ∈ l, c ≠ '\n') ∧ jsWs (l.headD ' ') = false ∧ l.headD ' ' ≠ '-'

instance : DecidablePred wfHeaderLine := fun l => by
  unfold wfHeaderLine; infer_instance

/-- A whitespace run containing no newline admits no `\s*\n` match. -/
theorem wsNlRests_nil_of_no_newline (B : List Char)
    (hB : ∀ c ∈ B.takeWhile jsWs, c ≠ '\n') : wsNlRests B = [] := by
  induction B with
  | nil => rfl
  | cons c rest ih =>
    by_cases hc : jsWs c = true
    · have hcn : c ≠ '\n' := hB c (by rw [List.takeWhile_cons, if_pos hc]; exact List.mem_cons_self c _)
      have ih2 : wsNlRests rest = [] :=
        ih (fun x hx => hB x (by rw [List.takeWhile_cons, if_pos hc]; exact List.mem_cons_of_mem c hx))
      simp [wsNlRests, hc, hcn, ih2]
    · simp [wsNlRests, hc]

/-- At a newline followed by a newline-free whitespace run, the greedy
`\s*\n` match consumes exactly the newline. -/
theorem wsNlRests_cons_newline (B : List Char)
    (hB : ∀ c ∈ B.takeWhile jsWs, c ≠ '\n') : wsNlRests ('\n' :: B) = [B] := by
  have h1 : jsWs '\n' = true := by decide
  simp [wsNlRests, h1, wsNlRests_nil_of_no_newline B hB]

/-- The lazy close scan steps over a position where the closing pattern
cannot start. -/
theorem findClose_cons_skip (acc : List Char) (c : Char) (rest : List Char)
    (h : ¬ (c = '\n' ∧ isDashes rest)) :
    findClose acc (c :: rest) = findClose (c :: acc) rest := by
  simp only [findClose]
  rw [if_neg h]

/-- The lazy close scan steps over a whole newline-free chunk. -/
theorem findClose_append (l : List Char) (hl : ∀ c ∈ l, c ≠ '\n') :
    ∀ (acc rest : List Char),
      findClose acc (l ++ rest) = findClose (l.reverse ++ acc) rest := by
  induction l with
  | nil => intro acc rest; simp
  | cons c t ih =>
    intro acc rest
    have hc : c ≠ '\n' := hl c (List.mem_cons_self c t)
    have hskip : ¬ (c = '\n' ∧ isDashes (t ++ rest)) := fun h => hc h.1
    rw [List.cons_append, findClose_cons_skip _ _ _ hskip,
        ih (fun x hx => hl x (List.mem_cons_of_mem c hx)) (c :: acc) rest]
    simp [List.append_assoc]

/-- The lazy close scan succeeds exactly at the closing `\n---\s*\n`. -/
theorem findClose_at_close (acc B : List Char)
    (hB : ∀ c ∈ B.takeWhile jsWs, c ≠ '\n') :
    findClose acc ('\n' :: '-' :: '-' :: '-' :: '\n' :: B) = some (acc.reverse, B) := by
  have hd : isDashes ('-' :: '-' :: '-' :: '\n' :: B) = true := by
    simp [isDashes, List.isPrefixOf]
  simp [findClose, hd, wsNlRests_cons_newline B hB]

/-- Unfolding the newline-join of a single line. -/
theorem intercalate_one (L : List Char) : ['\n'].intercalate [L] = L := by
  simp [List.intercalate]

/-- Unfolding the newline-join of two or more lines. -/
theorem intercalate_cons₂ (L : List Char) (ls : List (List Char)) (h : ls ≠ []) :
    ['\n'].intercalate (L :: ls) = L ++ '\n' :: ['\n'].intercalate ls := by
  cases ls with
  | nil => exact absurd rfl h
  | cons M t => simp [List.intercalate]

/-- The newline-join of a non-empty list of lines starts with its first
line. -/
theorem intercalate_head (M : List Char) (t : List (List Char)) :
    ∃ tail, ['\n'].intercalate (M :: t) = M ++ tail := by
  cases t with
  | nil => exact ⟨[], by simp [intercalate_one]⟩
  | cons N t2 => exact ⟨_, intercalate_cons₂ M (N :: t2) (by simp)⟩

/-- The close scan runs through well-formed header lines without triggering
and stops exactly at the closing delimiter, returning the joined header
text and the body. -/
theorem findClose_lines (B : List Char)
    (hB : ∀ c ∈ B.takeWhile jsWs, c ≠ '\n') :
    ∀ (lines : List (List Char)), lines ≠ [] → (∀ l ∈ lines, wfHeaderLine l) →
    ∀ acc : List Char,
      findClose acc (['\n'].intercalate lines ++ '\n' :: '-' :: '-' :: '-' :: '\n' :: B)
        = some (acc.reverse ++ ['\n'].intercalate lines, B) := by
  intro lines
  induction lines with
  | nil => intro h; exact absurd rfl h
  | cons L t ih =>
    intro _ hwf acc
    obtain ⟨hLne, hLnl, hLws, hLd⟩ := hwf L (List.mem_cons_self L t)
    cases t with
    | nil =>
      rw [intercalate_one, findClose_append L hLnl acc _, findClose_at_close _ B hB]
      simp
    | cons M t2 =>
      obtain ⟨hMne, hMnl, hMws, hMd⟩ := hwf M (List.mem_cons_of_mem L (List.mem_cons_self M t2))
      rw [intercalate_cons₂ L (M :: t2) (by simp), List.append_assoc,
          findClose_append L hLnl acc _]
      obtain ⟨tail, htail⟩ := intercalate_head M t2
      have hskip : ¬ ('\n' = '\n' ∧
          isDashes (['\n'].intercalate (M :: t2) ++ '\n' :: '-' :: '-' :: '-' :: '\n' :: B)) := by
        rw [htail]
        cases M with
        | nil => exact absurd rfl hMne
        | cons x M' =>
          intro hand
          have hx : x ≠ '-' := hMd
          have := hand.2
          simp [isDashes, List.isPrefixOf] at this
          exact hx this.1.symm
      rw [List.cons_append, findClose_cons_skip _ _ _ hskip,
          ih (by simp) (fun l hl => hwf l (List.mem_cons_of_mem L hl))
            ('\n' :: (L.reverse ++ acc))]
      simp [List.append_assoc]

/-- C8 (counterexample): the body is not always byte-identical to the
portion of the input after the closing `---` line.  In
`"---\nt: A\n---\n\nB"` the portion after the closing delimiter line is
`"\nB"`, but the regex's trailing `\s*\n` greedily absorbs the blank line,
so the parser returns body `"B"`. -/
theorem c8_roundtrip_counterexample :
    (parseMarkdownWithFrontmatter ("---\nt: A\n---\n\nB".data)).content = "B".data ∧
    (parseMarkdownWithFrontmatter ("---\nt: A\n---\n\nB".data)).content ≠ "\nB".data ∧
    (parseMarkdownWithFrontmatter ("---\nt: A\n---\n\nB".data)).frontmatter
      = [("t".data, FMValue.str "A".data)] := by
  decide

/-- C8 (amended): for a blob made of an opening `---` line, one or more
`key: value` header lines (each on one line, starting with a key character
that is not whitespace or a dash), a closing `---` line, and a body whose
leading whitespace contains no newline, the parser recovers the header
fields exactly by the per-line rule (split at the first `:`, trim, strip
one quote layer, split bracketed values) and returns the body byte-
identical to the portion after the closing delimiter.  When the body begins
with whitespace containing a newline, that prefix is absorbed into the
delimiter match instead. -/
theorem c8_frontmatter_roundtrip (lines : List (List Char)) (B : List Char)
    (hne : lines ≠ []) (hwf : ∀ l ∈ lines, wfHeaderLine l)
    (hB : ∀ c ∈ B.takeWhile jsWs, c ≠ '\n') :
    parseMarkdownWithFrontmatter
        ('-' :: '-' :: '-' :: '\n' ::
          (['\n'].intercalate lines ++ '\n' :: '-' :: '-' :: '-' :: '\n' :: B))
      = ⟨foldHeaderLines lines, B⟩ := by
  obtain ⟨L, t, rfl⟩ : ∃ L t, lines = L :: t := by
    cases lines with
    | nil => exact absurd rfl hne
    | cons L t => exact ⟨L, t, rfl⟩
  obtain ⟨hLne, hLnl, hLws, hLd⟩ := hwf L (List.mem_cons_self L t)
  obtain ⟨x, L', rfl⟩ : ∃ x L', L = x :: L' := by
    cases L with
    | nil => exact absurd rfl hLne
    | cons x L' => exact ⟨x, L', rfl⟩
  obtain ⟨tail, htail⟩ := intercalate_head (x :: L') t
  have hx : jsWs x = false := hLws
  -- the opening `\s*\n` consumes exactly the newline after the dashes
  have hrest : wsNlRests ('\n' ::
      (['\n'].intercalate ((x :: L') :: t) ++ '\n' :: '-' :: '-' :: '-' :: '\n' :: B))
      = [['\n'].intercalate ((x :: L') :: t) ++ '\n' :: '-' :: '-' :: '-' :: '\n' :: B] := by
    apply wsNlRests_cons_newline
    rw [htail]
    simp only [List.cons_append]
    rw [List.takeWhile_cons, if_neg (by simp [hx])]
    intro c hc
    exact absurd hc (List.not_mem_nil c)
  have hclose := findClose_lines B hB ((x :: L') :: t) (by simp)
      hwf []
  have hmatch : matchFrontmatter
      ('-' :: '-' :: '-' :: '\n' ::
        (['\n'].intercalate ((x :: L') :: t) ++ '\n' :: '-' :: '-' :: '-' :: '\n' :: B))
      = some (['\n'].intercalate ((x :: L') :: t), B) := by
    have hpre : isDashes ('-' :: '-' :: '-' :: '\n' ::
        (['\n'].intercalate ((x :: L') :: t) ++ '\n' :: '-' :: '-' :: '-' :: '\n' :: B))
        = true := by
      simp [isDashes, List.isPrefixOf]
    simp only [matchFrontmatter, hpre, if_true, List.drop_succ_cons, List.drop_zero]
    rw [hrest]
    simp only [List.findSome?]
    rw [hclose]
    simp
  rw [parseMarkdownWithFrontmatter, hmatch]
  have hsplit : (['\n'].intercalate ((x :: L') :: t)).splitOn '\n' = (x :: L') :: t := by
    apply List.splitOn_intercalate
    · intro l hl hmem
      exact (hwf l hl).2.1 '\n' hmem rfl
    · simp
  simp [parseFrontmatterText, hsplit]

/-- C8 witness: the amended theorem applied to the specification's example
blob, whose header parses to (title ↦ "A", tags ↦ ["a", "b"]) and whose
body is exactly `"BODY"`. -/
theorem c8_frontmatter_roundtrip_witness :
    (parseMarkdownWithFrontmatter
        ('-' :: '-' :: '-' :: '\n' ::
          (['\n'].intercalate ["title: \"A\"".data, "tags: [a, b]".data]
            ++ '\n' :: '-' :: '-' :: '-' :: '\n' :: "BODY".data))
      = ⟨foldHeaderLines ["title: \"A\"".data, "tags: [a, b]".data], "BODY".data⟩) ∧
    foldHeaderLines ["title: \"A\"".data, "tags: [a, b]".data]
      = [("title".data, FMValue.str "A".data),
         ("tags".data, FMValue.list ["a".data, "b".data])] :=
  ⟨c8_frontmatter_roundtrip ["title: \"A\"".data, "tags: [a, b]".data] "BODY".data
      (by decide) (by decide) (by decide),
   by decide⟩

/-- C9: when the front matter is absent (the input does not begin with the
`---` delimiter) or malformed (the front-matter pattern fails to match for
any other reason), the parser does not fail: it returns an empty header and
the whole input, unchanged, as the body. -/
theorem c9_no_frontmatter_identity (cs : List Char)
    (h : isDashes cs = false ∨ matchFrontmatter cs = none) :
    parseMarkdownWithFrontmatter cs = ⟨[], cs⟩ := by
  rcases h with h | h
  · rw [parseMarkdownWithFrontmatter]
    rw [matchFrontmatter, if_neg (by simp [h])]
  · rw [parseMarkdownWithFrontmatter, h]

/-- C9 witness: the theorem applied to a text without any delimiter. -/
theorem c9_no_frontmatter_witness :
    parseMarkdownWithFrontmatter ("just a plain text".data)
      = ⟨[], "just a plain text".data⟩ :=
  c9_no_frontmatter_identity ("just a plain text".data) (Or.inl (by decide))

end Portfolio
